import Mathlib

/-!
Verification of the GLESv2 debug server core
(src/opengl/libs/GLES2_dbg/src/server.cpp).

The file shallowly embeds the server's data model and operations:

* `SockState` / `StopDebugServer` model the global socket descriptors
  `serverSock` / `clientSock` (lines 30, 93-105).
* `Receive` models the byte-level receive discipline (lines 107-133):
  a 4-byte big-endian length header followed by exactly that many payload
  bytes, read with `MSG_WAITALL` ("all requested bytes, or fewer only at
  stream end / error"), any mismatch being fatal (`Die`, lines 36-41).
* `Message`, `World`, `LoopEnv` and the operations `systemTime`, `ReceiveMsg`,
  `Send`, `SetProp`, `loopSteps`, `MessageLoop`, `StartDebugServer` embed the
  session state machine (lines 135-228) at message granularity: the peer is a
  script of reply `Message`s, the clock an oracle, the intercepted call an
  oracle indexed by invocation count, and every externally visible action is
  recorded in an event trace.
* `WireAct`, `Conc`, `stepC`, `runC` give a small interleaving semantics for
  the concurrency discipline of `Send` (one pthread mutex held across
  header write, payload write and the optional receive, lines 137-167) and of
  the unlocked receive in `MessageLoop`'s SETPROP branch (line 220).
-/

deriving instance DecidableEq for Except

/-- The two global socket descriptors, `serverSock` and `clientSock`
(server.cpp line 30).  A descriptor is an `Int` as returned by
`socket`/`accept`; the code uses `-1` for "absent". -/
structure SockState where
  clientSock : Int
  serverSock : Int
deriving DecidableEq, Repr

/-- `StopDebugServer` (server.cpp lines 93-105): close the client socket if
its descriptor is `> 0`, then the server socket if its descriptor is `> 0`,
resetting each closed one to `-1`.  (Note the source tests `> 0`, not
`>= 0`.) -/
def StopDebugServer (s : SockState) : SockState :=
  { clientSock := if 0 < s.clientSock then -1 else s.clientSock,
    serverSock := if 0 < s.serverSock then -1 else s.serverSock }

/-- `recv(fd, buf, n, MSG_WAITALL)` on a stream whose remaining bytes are
`stream`: returns the bytes actually obtained (all `n`, or fewer only when
the stream ends first) together with the rest of the stream. -/
def recvWaitall (stream : List Nat) (n : Nat) : List Nat × List Nat :=
  (stream.take n, stream.drop n)

/-- `ntohl` applied to 4 bytes in network (big-endian) order. -/
def be32 (b : List Nat) : Nat :=
  match b with
  | [b0, b1, b2, b3] => ((b0 * 256 + b1) * 256 + b2) * 256 + b3
  | _ => 0

/-- The input state `Receive` operates on: the remaining bytes of the client
stream plus the global sockets (needed because a failed receive calls `Die`,
which tears the session down). -/
structure RecvState where
  stream : List Nat
  socks : SockState
deriving DecidableEq, Repr

/-- `Receive` at byte level (server.cpp lines 107-133): read exactly 4 header
bytes (fewer is fatal), decode the declared payload length with `ntohl`, read
exactly that many payload bytes (fewer is fatal).  A fatal path is `Die`
(lines 36-41): `StopDebugServer` then `exit(1)`; the `Except.error` value
carries the torn-down socket state and stands for process termination.
On success the result is the payload handed to `ParseFromArray` (exactly the
declared number of bytes; the reused growable buffer never leaks stale bytes
past the declared length because parsing is bounded by `len`). -/
def Receive (s : RecvState) : Except SockState (List Nat × RecvState) :=
  let hdr := (recvWaitall s.stream 4).1
  let rest := (recvWaitall s.stream 4).2
  if hdr.length ≠ 4 then Except.error (StopDebugServer s.socks)
  else
    let len := be32 hdr
    let payload := (recvWaitall rest len).1
    let rest2 := (recvWaitall rest len).2
    if payload.length ≠ len then Except.error (StopDebugServer s.socks)
    else Except.ok (payload, { stream := rest2, socks := s.socks })

/-- The `Message_Function` tag as used by the server: the three interception
directives, the handshake `ACK`, and the numbered GL call tags (the protobuf
enum's remaining values). -/
inductive MFunction where
  | CONTINUE
  | SKIP
  | SETPROP
  | ACK
  | glCall (n : Nat)
deriving DecidableEq, Repr

/-- `Message_Type`: the phase of the call the message reports. -/
inductive MType where
  | BeforeCall
  | AfterCall
  | Response
deriving DecidableEq, Repr

/-- `Message_Prop`: which runtime property a SETPROP directive names. -/
inductive MProp where
  | Capture
  | TimeMode
  | otherProp (n : Nat)
deriving DecidableEq, Repr

/-- The protobuf `Message` envelope, restricted to the fields the server core
reads or writes (context_id, function, type, expect_response, time, prop,
arg0).  Field defaults are the protobuf defaults of a cleared message. -/
structure Message where
  context_id : Nat := 0
  function : MFunction := .glCall 0
  type_ : MType := .BeforeCall
  expect_response : Bool := false
  time : Option Int := none
  prop : MProp := .Capture
  arg0 : Int := 0
deriving DecidableEq, Repr

/-- One observable action of the session, in program order.  `wroteHeader`
and `sentMsg` are the two `send` calls inside `Send` (lines 146 and 152);
`received` is a completed `Receive`; `invoked` is one execution of the
intercepted call (`functionCall`, line 205), numbered by invocation count;
`propSet` is one assignment performed by `SetProp`; `clockRead` is one call
of `systemTime(timeMode)`, tagged with the mode in force at the read. -/
inductive Event where
  | wroteHeader
  | sentMsg (m : Message)
  | received (m : Message)
  | invoked (k : Nat)
  | propSet (p : MProp) (v : Int)
  | clockRead (mode : Int) (v : Int)
deriving DecidableEq, Repr

/-- The value of `SYSTEM_TIME_THREAD` (Android utils/Timers.h), the initial
value of the global `timeMode` (server.cpp line 32). -/
def SYSTEM_TIME_THREAD : Int := 3

/-- The result the intercepted call oracle produces for one invocation:
the returned pointer (modelled as an `Int`, `0` standing for null) and the
`time` field it may or may not have filled into the message
(`msg.has_time()`, line 206). -/
structure FCRet where
  ret : Int
  time : Option Int
deriving DecidableEq, Repr

/-- The external collaborators of the session, fixed for a run: the calling
thread's identity (`pthread_self`, line 141), the clock source read by
`systemTime` (an oracle indexed by how many reads happened so far), and the
intercepted call (`functionCall`, an oracle indexed by how many invocations
happened so far). -/
structure LoopEnv where
  tid : Nat
  clockFn : Nat → Int
  fc : Nat → FCRet

/-- The mutable session state threaded through the embedded operations:
the peer's remaining scripted replies, the clock-read counter, the globals
`capture` and `timeMode`, the two sockets, the invocation counter, and the
accumulated event trace. -/
structure World where
  script : List Message
  clockIdx : Nat
  capture : Int
  timeMode : Int
  socks : SockState
  invokeCount : Nat
  events : List Event
deriving DecidableEq, Repr

/-- `systemTime(timeMode)`: read the configured clock source.  Consumes the
next oracle value and records the read, tagged with the current mode. -/
def systemTime (env : LoopEnv) (w : World) : Int × World :=
  (env.clockFn w.clockIdx,
   { w with
     clockIdx := w.clockIdx + 1,
     events := w.events ++ [.clockRead w.timeMode (env.clockFn w.clockIdx)] })

/-- `Receive` at message granularity, as used by `Send` and by the SETPROP
branch of `MessageLoop`: the peer's next scripted reply arrives whole (the
byte-level discipline is `Receive` above).  `none` models a silent peer: the
blocking `recv` never returns. -/
def ReceiveMsg (w : World) : Option (Message × World) :=
  match w.script with
  | [] => none
  | c :: rest =>
    some (c, { w with script := rest, events := w.events ++ [.received c] })

/-- `ns2ms` (utils/Timers.h): nanoseconds to milliseconds by integer
division, truncating toward zero as C integer division does. -/
def ns2ms (x : Int) : Int := Int.tdiv x 1000000

/-- `Send` (server.cpp lines 135-169), success path: under the mutex, stamp
`msg.context_id` with `pthread_self()`, serialize, write the 4-byte length
header, read the clock, write the payload, read the clock again, and — iff
`expect_response` — block in `Receive` for the reply, which replaces `cmd`.
Returns the measured duration `ns2ms(c1 - c0)` (the `float` cast of the
source does not change the integer value), the resulting `cmd`, and the new
world.  The error value is the world at the point the blocking receive
found a silent peer.  Short writes (fatal in the source) are not modelled:
every claim about `Send` concerns its success path. -/
def Send (env : LoopEnv) (msg cmd : Message) (w : World) :
    Except World (Int × Message × World) :=
  let msg1 := { msg with context_id := env.tid }
  let wh := { w with events := w.events ++ [Event.wroteHeader] }
  let p0 := systemTime env wh
  let wp := { p0.2 with events := p0.2.events ++ [Event.sentMsg msg1] }
  let p1 := systemTime env wp
  let t := ns2ms (p1.1 - p0.1)
  if msg1.expect_response then
    match ReceiveMsg p1.2 with
    | none => Except.error p1.2
    | some (c, w2) => Except.ok (t, c, w2)
  else
    Except.ok (t, cmd, p1.2)

/-- `SetProp` (server.cpp lines 171-185): assign `cmd.arg0` to the global
named by `cmd.prop` (`capture` or `timeMode`), recording the assignment.
An unrecognized property hits `assert(0)`, which aborts the process
(no socket teardown); the error value carries the world at that point. -/
def SetProp (cmd : Message) (w : World) : Except World World :=
  match cmd.prop with
  | .Capture =>
    Except.ok { w with capture := cmd.arg0,
                       events := w.events ++ [.propSet .Capture cmd.arg0] }
  | .TimeMode =>
    Except.ok { w with timeMode := cmd.arg0,
                       events := w.events ++ [.propSet .TimeMode cmd.arg0] }
  | .otherProp _ => Except.error w

/-- `Die` (server.cpp lines 36-41): tear the session down with
`StopDebugServer`, then `exit(1)` (the outcome constructor `.died` stands
for the termination). -/
def DieW (w : World) : World := { w with socks := StopDebugServer w.socks }

/-- How a run of the interception loop ends: a `SKIP` directive returning
the accumulated result pointer; a blocking receive that never returns
(silent peer); a fatal abort; or exhaustion of the step budget (the source
loop is `while (true)`). -/
inductive Outcome where
  | finished (ret : Int)
  | blocked
  | died
  | fuelOut
deriving DecidableEq, Repr

/-- The `while (true)` body of `MessageLoop` (server.cpp lines 200-226),
with an explicit step budget.  Each iteration clears `msg`, reads the clock
(`c0`, line 202), and dispatches on `cmd.function`:

* `CONTINUE` (lines 204-215): run the intercepted call, fill `msg.time` from
  the clock unless the call already set it (the source stores the float
  `(Δns) * 1e-6f`; the model stores the raw nanosecond difference, a value
  no claim inspects), rebuild `msg` as the `AfterCall` report and `Send` it;
  when no response is expected, overwrite `cmd.function` with `SKIP`.
* `SKIP` (lines 216-217): return the result pointer.
* `SETPROP` (lines 218-221): apply `SetProp`, then block in `Receive` for
  the next directive without sending anything.
* any other tag (lines 222-224): `ASSERT(0)`.  Modelled from the spec: the
  `ASSERT` macro lives in header.h, which is not part of the sources here;
  the spec (section 7) makes an unrecognized directive fatal with the same
  teardown path as `Die`, so the model calls `DieW` and stops. -/
def loopSteps (env : LoopEnv) (expectResponse : Bool) (function : MFunction) :
    Nat → Int → Message → World → Outcome × World
  | 0, _, _, w => (.fuelOut, w)
  | fuel + 1, ret, cmd, w =>
    let p0 := systemTime env w
    match cmd.function with
    | .CONTINUE =>
      let k := p0.2.invokeCount
      let fr := env.fc k
      let w2 := { p0.2 with invokeCount := k + 1,
                            events := p0.2.events ++ [.invoked k] }
      let tw :=
        match fr.time with
        | some tv => (some tv, w2)
        | none =>
          let p1 := systemTime env w2
          (some (p1.1 - p0.1), p1.2)
      let msgAfter : Message :=
        { context_id := 0, function := function, type_ := .AfterCall,
          expect_response := expectResponse, time := tw.1 }
      match Send env msgAfter cmd tw.2 with
      | Except.error wB => (.blocked, wB)
      | Except.ok (_, cmdR, w4) =>
        let cmd2 := if expectResponse then cmdR
                    else { cmdR with function := .SKIP }
        loopSteps env expectResponse function fuel fr.ret cmd2 w4
    | .SKIP => (.finished ret, p0.2)
    | .SETPROP =>
      match SetProp cmd p0.2 with
      | Except.error wD => (.died, wD)
      | Except.ok w2 =>
        match ReceiveMsg w2 with
        | none => (.blocked, w2)
        | some (cmd2, w3) => loopSteps env expectResponse function fuel ret cmd2 w3
    | .ACK => (.died, DieW p0.2)
    | .glCall _ => (.died, DieW p0.2)

/-- `MessageLoop` (server.cpp lines 187-228): build the `BeforeCall` message
(`context_id` 0, the given function tag, the caller's response policy),
`Send` it, synthesize a local `CONTINUE` directive when no response is
expected, and enter the loop with a null result pointer. -/
def MessageLoop (env : LoopEnv) (expectResponse : Bool)
    (function : MFunction) (fuel : Nat) (w : World) : Outcome × World :=
  let msgBefore : Message :=
    { context_id := 0, function := function, type_ := .BeforeCall,
      expect_response := expectResponse }
  match Send env msgBefore {} w with
  | Except.error wB => (.blocked, wB)
  | Except.ok (_, cmdR, w1) =>
    let cmd1 := if expectResponse then cmdR
                else { cmdR with function := .CONTINUE }
    loopSteps env expectResponse function fuel 0 cmd1 w1

/-- `StartDebugServer` (server.cpp lines 43-91), success path: a no-op when
`serverSock >= 0`; otherwise install the freshly created server and accepted
client descriptors (socket/bind/listen/accept failures all `Die` and are not
modelled — every claim concerns a successful start) and perform the
handshake: `Send` a message with `context_id` 0, function `ACK`, type
`Response`, `expect_response` false, reading no reply. -/
def StartDebugServer (env : LoopEnv) (newServerSock newClientSock : Int)
    (w : World) : World :=
  if 0 ≤ w.socks.serverSock then w
  else
    let w1 := { w with socks := { clientSock := newClientSock,
                                  serverSock := newServerSock } }
    let msg : Message :=
      { context_id := 0, function := .ACK, type_ := .Response,
        expect_response := false }
    match Send env msg {} w1 with
    | Except.error wB => wB
    | Except.ok (_, _, w2) => w2

/-- Project a sent frame out of an event (the payload write carrying the
serialized message). -/
def sentOf : Event → Option Message
  | .sentMsg m => some m
  | _ => none

/-- Project a completed receive out of an event. -/
def recvOf : Event → Option Message
  | .received m => some m
  | _ => none

/-- Project a property assignment out of an event. -/
def propOfE : Event → Option (MProp × Int)
  | .propSet p v => some (p, v)
  | _ => none

/-- Is the event a wire write (either of the two `send` calls)? -/
def isSentE : Event → Bool
  | .wroteHeader => true
  | .sentMsg _ => true
  | _ => false

/-- Is the event a completed receive? -/
def isRecvE : Event → Bool
  | .received _ => true
  | _ => false

/-- Is the event an invocation of the intercepted call? -/
def isInvokedE : Event → Bool
  | .invoked _ => true
  | _ => false

/-- After every property assignment, the next wire event in the trace (if
any) is a receive, not a send: nothing is sent between a SETPROP directive
being applied and the following blocking receive. -/
def sentAfterPropOK : List Event → Bool
  | [] => true
  | .propSet _ _ :: rest =>
    (match rest.find? (fun e => isSentE e || isRecvE e) with
     | some e => isRecvE e
     | none => true) && sentAfterPropOK rest
  | _ :: rest => sentAfterPropOK rest

/-- No invocation of the intercepted call occurs in the trace before the
first received message whose function tag is `CONTINUE`. -/
def noInvokeBeforeContinue : List Event → Bool
  | [] => true
  | .invoked _ :: _ => false
  | .received m :: rest =>
    if m.function = MFunction.CONTINUE then true else noInvokeBeforeContinue rest
  | _ :: rest => noInvokeBeforeContinue rest

/-- The events generated while the loop works through a chain of SETPROP
directives: `cmds` are the directives being dispatched in order, `follow`
the scripted messages received after each one (`follow.head` answers
`cmds.head`, and becomes the next dispatched directive).  Each step reads
the clock at the top of the iteration, applies the property, and receives
the follow-up; a `TimeMode` assignment changes the mode tagged on later
clock reads. -/
def spEvents (env : LoopEnv) :
    List Message → List Message → Nat → Int → List Event
  | c :: cs, f :: fs, ci, tm =>
    [.clockRead tm (env.clockFn ci), .propSet c.prop c.arg0, .received f] ++
      spEvents env cs fs (ci + 1)
        (if c.prop = MProp.TimeMode then c.arg0 else tm)
  | _, _, _, _ => []

/-- The value of `capture` after a chain of SETPROP directives. -/
def spCap (cmds : List Message) (cap : Int) : Int :=
  cmds.foldl (fun a c => if c.prop = MProp.Capture then c.arg0 else a) cap

/-- The value of `timeMode` after a chain of SETPROP directives. -/
def spTM (cmds : List Message) (tm : Int) : Int :=
  cmds.foldl (fun a c => if c.prop = MProp.TimeMode then c.arg0 else a) tm

/-- A well-formed SETPROP directive as claim C4 ranges over them: the
function tag is `SETPROP` and the named property is one of the two the
server knows. -/
def validSP (m : Message) : Prop :=
  m.function = MFunction.SETPROP ∧
    (m.prop = MProp.Capture ∨ m.prop = MProp.TimeMode)

instance (m : Message) : Decidable (validSP m) := by
  unfold validSP; infer_instance

/-- The atomic actions of one thread interacting with the connection, for
the interleaving model of `Send` (server.cpp lines 137-167): take /release
the single pthread mutex, write the 4-byte length header, write the
payload, and perform one blocking receive. -/
inductive WireAct where
  | lockA
  | unlockA
  | writeHeaderA
  | writePayloadA
  | recvA
deriving DecidableEq, Repr

/-- Does the action touch the wire (as opposed to the mutex)? -/
def wireAct : WireAct → Bool
  | .writeHeaderA => true
  | .writePayloadA => true
  | .recvA => true
  | _ => false

/-- A state of the interleaving semantics: each thread's remaining program
(the thread's identifier is its index), the mutex holder, and the global
trace of performed actions. -/
structure Conc where
  threads : List (List WireAct)
  holder : Option Nat
  trace : List (Nat × WireAct)
deriving DecidableEq, Repr

/-- One scheduler step: thread `i` performs the next action of its program.
`lockA` is enabled only when the mutex is free; `unlockA` only for the
holder; wire actions are always enabled (the socket itself imposes no
mutual exclusion — only the mutex does). -/
def stepC (s : Conc) (i : Nat) : Option Conc :=
  match s.threads[i]? with
  | none => none
  | some [] => none
  | some (a :: rest) =>
    match a with
    | .lockA =>
      match s.holder with
      | none => some ⟨s.threads.set i rest, some i, s.trace ++ [(i, a)]⟩
      | some _ => none
    | .unlockA =>
      if s.holder = some i then
        some ⟨s.threads.set i rest, none, s.trace ++ [(i, a)]⟩
      else none
    | _ => some ⟨s.threads.set i rest, s.holder, s.trace ++ [(i, a)]⟩

/-- Run a schedule (a list of thread indices) from a state; `none` when the
schedule picks a finished thread or a disabled action. -/
def runC (s : Conc) : List Nat → Option Conc
  | [] => some s
  | i :: sched =>
    match stepC s i with
    | none => none
    | some s2 => runC s2 sched

/-- The program of one `Send` call with `expect_response = true` (server.cpp
lines 137-167): lock the mutex, write the header, write the payload, block
in `Receive` for the reply, unlock. -/
def sendProg : List WireAct :=
  [.lockA, .writeHeaderA, .writePayloadA, .recvA, .unlockA]

/-- The program of the receive performed from `MessageLoop`'s SETPROP branch
(server.cpp line 220): a bare `Receive`, with no mutex acquisition. -/
def setpropRecvProg : List WireAct := [WireAct.recvA]

/-- The thread identifiers of the wire actions in a trace, in order. -/
def wireTids (tr : List (Nat × WireAct)) : List Nat :=
  (tr.filter (fun p => wireAct p.2)).map Prod.fst

/-- Collapse consecutive duplicates: one representative per maximal run. -/
def runsOf : List Nat → List Nat
  | [] => []
  | [a] => [a]
  | a :: b :: rest =>
    if a = b then runsOf (b :: rest) else a :: runsOf (b :: rest)

/-- A list of thread identifiers is grouped when each thread's entries form
one contiguous block: collapsing runs leaves no duplicates.  Applied to
`wireTids`, this says no thread's wire operations interleave another's. -/
def grouped (l : List Nat) : Prop := (runsOf l).Nodup

instance (l : List Nat) : Decidable (grouped l) := by
  unfold grouped; infer_instance

/-- The initial state of `n` threads that each perform one `Send` with
`expect_response = true`. -/
def sendersInit (n : Nat) : Conc :=
  ⟨List.replicate n sendProg, none, []⟩

/-- A sample environment for concrete instantiations: thread id 1, clock
oracle returning its index, intercepted call returning pointer 7 with no
self-recorded time. -/
def envA : LoopEnv :=
  { tid := 1, clockFn := fun n => Int.ofNat n, fc := fun _ => { ret := 7, time := none } }

/-- A sample fresh world: no script, zeroed counters, both sockets absent,
`timeMode` at its initial value. -/
def w0 : World :=
  { script := [], clockIdx := 0, capture := 0, timeMode := SYSTEM_TIME_THREAD,
    socks := { clientSock := -1, serverSock := -1 }, invokeCount := 0,
    events := [] }

/-- The world produced by one successful no-response `Send` of an ACK
message from the sample fresh world. -/
def wC8 : World :=
  { script := [], clockIdx := 2, capture := 0, timeMode := SYSTEM_TIME_THREAD,
    socks := { clientSock := -1, serverSock := -1 }, invokeCount := 0,
    events := [Event.wroteHeader, Event.clockRead 3 0,
               Event.sentMsg { context_id := 1, function := .ACK },
               Event.clockRead 3 1] }

/-- A CONTINUE directive message. -/
def cCONT : Message := { function := .CONTINUE }

/-- A SKIP directive message. -/
def sSKIP : Message := { function := .SKIP }

/-- The sample world scripted with CONTINUE then SKIP. -/
def wC1 : World := { w0 with script := [cCONT, sSKIP] }

/-- An out-of-protocol directive (function tag ACK). -/
def badACK : Message := { function := .ACK }

/-- The sample world scripted with the out-of-protocol directive. -/
def wC7 : World := { w0 with script := [badACK] }

/-- A SETPROP directive for the capture flag. -/
def spCapMsg : Message := { function := .SETPROP, prop := .Capture, arg0 := 1 }

/-- A SETPROP directive for the clock-source selector. -/
def spTMMsg : Message := { function := .SETPROP, prop := .TimeMode, arg0 := 2 }

/-- The sample world scripted with two SETPROPs then SKIP. -/
def wC4 : World := { w0 with script := [spCapMsg, spTMMsg, sSKIP] }

/-- The control points of a thread running one `Send` cycle. -/
def senderPt (t : List WireAct) : Prop :=
  t = sendProg ∨
  t = [.writeHeaderA, .writePayloadA, .recvA, .unlockA] ∨
  t = [.writePayloadA, .recvA, .unlockA] ∨
  t = [.recvA, .unlockA] ∨ t = [.unlockA] ∨ t = []

/-- Control points strictly inside the mutex-protected section. -/
def inCS (t : List WireAct) : Prop :=
  t = [.writeHeaderA, .writePayloadA, .recvA, .unlockA] ∨
  t = [.writePayloadA, .recvA, .unlockA] ∨
  t = [.recvA, .unlockA] ∨ t = [.unlockA]

/-- Control points that already wrote to the wire and will write again. -/
def midCS (t : List WireAct) : Prop :=
  t = [.writePayloadA, .recvA, .unlockA] ∨ t = [.recvA, .unlockA]

/-- The inductive invariant of an all-senders system: every thread is at a
sender control point; the mutex holder is exactly any thread inside the
critical section; the wire trace is grouped; a thread in mid-emission owns
the trace's current tail; and a thread has emitted iff it is past the
header write. -/
structure SendInv (s : Conc) : Prop where
  pts : ∀ (i : Nat) (t : List WireAct), s.threads[i]? = some t → senderPt t
  cs_holder : ∀ (i : Nat) (t : List WireAct),
    s.threads[i]? = some t → inCS t → s.holder = some i
  holder_cs : ∀ i : Nat, s.holder = some i →
    ∃ t, s.threads[i]? = some t ∧ inCS t
  grp : grouped (wireTids s.trace)
  tail_mid : ∀ (i : Nat) (t : List WireAct),
    s.threads[i]? = some t → midCS t →
    (wireTids s.trace).getLast? = some i
  emitted : ∀ (i : Nat) (t : List WireAct), s.threads[i]? = some t →
    (i ∈ wireTids s.trace ↔ t.length ≤ 3)

/-- C9 (amended): `StopDebugServer` resets to `-1` exactly those descriptors
that are strictly positive and leaves the others (including a valid
descriptor 0) unchanged; calling it when neither descriptor is positive is
a no-op, and it is idempotent on every state. -/
theorem stopDebugServer_spec (s : SockState) :
    StopDebugServer (StopDebugServer s) = StopDebugServer s ∧
    (StopDebugServer s).clientSock =
      (if 0 < s.clientSock then -1 else s.clientSock) ∧
    (StopDebugServer s).serverSock =
      (if 0 < s.serverSock then -1 else s.serverSock) ∧
    (s.clientSock ≤ 0 → s.serverSock ≤ 0 → StopDebugServer s = s) := by
  refine ⟨?_, rfl, rfl, fun h1 h2 => ?_⟩
  · simp only [StopDebugServer, SockState.mk.injEq]
    constructor <;> split_ifs <;> omega
  · have hc : ¬ 0 < s.clientSock := by omega
    have hv : ¬ 0 < s.serverSock := by omega
    simp [StopDebugServer, hc, hv]

/-- C9 witness: the amended statement applied at two concrete states, the
no-op hypotheses discharged at the all-closed state. -/
theorem stopDebugServer_spec_witness :
    StopDebugServer (StopDebugServer ⟨-1, 5⟩) = StopDebugServer ⟨-1, 5⟩ ∧
    StopDebugServer ⟨-1, -1⟩ = (⟨-1, -1⟩ : SockState) :=
  ⟨(stopDebugServer_spec ⟨-1, 5⟩).1,
   (stopDebugServer_spec ⟨-1, -1⟩).2.2.2 (by decide) (by decide)⟩

/-- C9 counterexample: descriptor 0 is a valid descriptor that `accept` can
return, so the state "client socket open with descriptor 0" is not reset to
the absent state by `StopDebugServer` (the source tests `> 0`), refuting
"closes the client socket if one is open ... and resets both to the absent
state" for every session state. -/
theorem stopDebugServer_fd0 : (StopDebugServer ⟨0, -1⟩).clientSock ≠ -1 := by
  decide

/-- C10: `SetProp` modifies exactly one runtime property per directive —
`Capture` sets `capture` to `arg0` leaving `timeMode` (and everything else)
unchanged, `TimeMode` sets `timeMode` to `arg0` leaving `capture` unchanged;
each records exactly its own assignment. -/
theorem setProp_one_property (cmd : Message) (w : World) :
    (cmd.prop = MProp.Capture →
      SetProp cmd w = Except.ok
        { w with capture := cmd.arg0,
                 events := w.events ++ [.propSet .Capture cmd.arg0] }) ∧
    (cmd.prop = MProp.TimeMode →
      SetProp cmd w = Except.ok
        { w with timeMode := cmd.arg0,
                 events := w.events ++ [.propSet .TimeMode cmd.arg0] }) := by
  constructor <;> intro h <;> simp [SetProp, h]

/-- C10 witness: a concrete Capture directive applied to the sample world. -/
theorem setProp_one_property_witness :
    SetProp { function := .SETPROP, prop := .Capture, arg0 := 5 } w0 =
      Except.ok { w0 with capture := 5,
                          events := w0.events ++ [.propSet .Capture 5] } :=
  (setProp_one_property { function := .SETPROP, prop := .Capture, arg0 := 5 } w0).1
    rfl

/-- C6: the receive discipline.  On success, `Receive` consumed exactly the
4 header bytes plus exactly the declared number `L = be32(header)` of
payload bytes, and the decoded payload has length exactly `L` (never
shorter).  Whenever the stream cannot supply 4 header bytes, or cannot
supply `L` payload bytes after them, `Receive` is fatal: it returns the
torn-down socket state (`Die` = `StopDebugServer` + `exit`). -/
theorem receive_length_honesty (s : RecvState) :
    (∀ p r, Receive s = Except.ok (p, r) →
      4 ≤ s.stream.length ∧
      p = (s.stream.drop 4).take (be32 (s.stream.take 4)) ∧
      p.length = be32 (s.stream.take 4) ∧
      r.stream = s.stream.drop (4 + be32 (s.stream.take 4)) ∧
      r.socks = s.socks) ∧
    ((s.stream.length < 4 ∨
        s.stream.length < 4 + be32 (s.stream.take 4)) →
      Receive s = Except.error (StopDebugServer s.socks)) := by
  constructor
  · intro p r h
    simp only [Receive, recvWaitall] at h
    split at h
    · exact absurd h (by simp)
    · next h4 =>
      split at h
      · exact absurd h (by simp)
      · next hlen =>
        simp only [Except.ok.injEq, Prod.mk.injEq] at h
        obtain ⟨hp, hr⟩ := h
        have hl4 : 4 ≤ s.stream.length := by
          have := List.length_take 4 s.stream
          omega
        refine ⟨hl4, hp.symm, ?_, ?_, ?_⟩
        · rw [← hp]; omega
        · rw [← hr]
          simp [List.drop_drop, Nat.add_comm]
        · rw [← hr]
  · intro hshort
    simp only [Receive, recvWaitall]
    split
    · rfl
    · next h4 =>
      have hl4 : 4 ≤ s.stream.length := by
        have := List.length_take 4 s.stream
        omega
      split
      · rfl
      · next hlen =>
        exfalso
        have hplen := List.length_take (be32 (s.stream.take 4)) (s.stream.drop 4)
        have hdlen := List.length_drop 4 s.stream
        omega

/-- C6 witness: a stream with a full frame decodes to a payload of exactly
the declared length, and a stream too short for the header is fatal. -/
theorem receive_length_honesty_witness :
    ([9, 8] : List Nat).length =
      be32 (([0, 0, 0, 2, 9, 8, 5] : List Nat).take 4) ∧
    Receive ⟨[0, 0], ⟨3, 4⟩⟩ = Except.error (StopDebugServer ⟨3, 4⟩) :=
  ⟨((receive_length_honesty ⟨[0, 0, 0, 2, 9, 8, 5], ⟨3, 4⟩⟩).1 [9, 8]
      ⟨[5], ⟨3, 4⟩⟩ (by decide)).2.2.1,
   (receive_length_honesty ⟨[0, 0], ⟨3, 4⟩⟩).2 (by decide)⟩

/-- C3 (amended): after a successful fresh start, the first — and only —
frame the server sends decodes to a Message with `function = ACK`,
`type = Response`, `expect_response = false`, and `context_id` equal to the
calling thread's identity (which `Send` stamps over the initial 0 with
`pthread_self()`); the server reads no reply to this frame (the script is
untouched and the trace contains no receive). -/
theorem start_handshake (env : LoopEnv) (srv cli : Int) (w : World)
    (hs : w.socks.serverSock < 0) (hev : w.events = []) :
    (StartDebugServer env srv cli w).events =
      [Event.wroteHeader,
       Event.clockRead w.timeMode (env.clockFn w.clockIdx),
       Event.sentMsg { context_id := env.tid, function := .ACK,
                       type_ := .Response, expect_response := false },
       Event.clockRead w.timeMode (env.clockFn (w.clockIdx + 1))] ∧
    (StartDebugServer env srv cli w).script = w.script := by
  have hguard : ¬ 0 ≤ w.socks.serverSock := by omega
  simp [StartDebugServer, Send, systemTime, ReceiveMsg, hguard, hev]

/-- C3 witness: the amended statement at the sample environment and fresh
world, hypotheses discharged concretely. -/
theorem start_handshake_witness :
    (StartDebugServer envA 3 4 w0).events =
      [Event.wroteHeader,
       Event.clockRead w0.timeMode (envA.clockFn w0.clockIdx),
       Event.sentMsg { context_id := envA.tid, function := .ACK,
                       type_ := .Response, expect_response := false },
       Event.clockRead w0.timeMode (envA.clockFn (w0.clockIdx + 1))] ∧
    (StartDebugServer envA 3 4 w0).script = w0.script :=
  start_handshake envA 3 4 w0 (by decide) rfl

/-- C3 counterexample: run the successful start with a thread whose
`pthread_self()` is 1 — the first frame sent carries `context_id = 1`,
not 0, because `Send` overwrites the 0 that `StartDebugServer` set
(server.cpp line 141); so the claim's `context_id = 0` fails. -/
theorem start_handshake_ctx_not_zero :
    ((StartDebugServer envA 3 4 w0).events.filterMap sentOf).head?.map
        Message.context_id ≠ some 0 := by
  decide

/-- C8: on every successful `Send`, the returned value is the elapsed time
in milliseconds (`ns2ms` of the difference of two clock readings) measured
by the session's configured clock source around the payload write only: the
trace shows the first reading taken after the header write and before the
payload write, the second immediately after the payload write, both tagged
with the session's `timeMode`, with nothing but the optional reply receive
after them. -/
theorem send_times_payload_write (env : LoopEnv) (msg cmd : Message)
    (w : World) :
    ∀ t c w2, Send env msg cmd w = Except.ok (t, c, w2) →
      t = ns2ms (env.clockFn (w.clockIdx + 1) - env.clockFn w.clockIdx) ∧
      w2.events =
        w.events ++
          [Event.wroteHeader,
           Event.clockRead w.timeMode (env.clockFn w.clockIdx),
           Event.sentMsg { msg with context_id := env.tid },
           Event.clockRead w.timeMode (env.clockFn (w.clockIdx + 1))] ++
          (if msg.expect_response then (w.script.take 1).map Event.received
           else []) := by
  intro t c w2 h
  by_cases he : msg.expect_response
  · cases hs : w.script with
    | nil => simp [Send, systemTime, ReceiveMsg, he, hs] at h
    | cons m rest =>
      simp only [Send, systemTime, ReceiveMsg, he, hs, if_pos,
        List.append_assoc] at h
      simp only [Except.ok.injEq, Prod.mk.injEq] at h
      obtain ⟨ht, hc, hw⟩ := h
      subst ht hw
      simp [he, hs]
  · simp only [Send, systemTime, ReceiveMsg, he, if_neg, Bool.false_eq_true,
      not_false_iff, List.append_assoc] at h
    simp only [Except.ok.injEq, Prod.mk.injEq] at h
    obtain ⟨ht, hc, hw⟩ := h
    subst ht hw
    simp [he]

/-- C8 witness: the timing statement at a concrete successful send. -/
theorem send_times_payload_write_witness :
    (0 : Int) =
      ns2ms (envA.clockFn (w0.clockIdx + 1) - envA.clockFn w0.clockIdx) :=
  (send_times_payload_write envA { function := .ACK } {} w0 0 {} wC8
    (by decide)).1

/-- C5: with `expect_response = false`, `MessageLoop` invokes the
intercepted call exactly once, never performs a socket receive (the trace
has no receive and the peer script is untouched), still sends exactly two
frames — one `BeforeCall` and one `AfterCall` — and terminates, returning
the single invocation's result (the loop feeds itself the synthesized
`CONTINUE` after the BeforeCall send and `SKIP` after the AfterCall
send). -/
theorem noresponse_loop (env : LoopEnv) (g : MFunction) (w : World)
    (fuel : Nat) (hf : 2 ≤ fuel) (hinv : w.invokeCount = 0)
    (hev : w.events = []) :
    (MessageLoop env false g fuel w).1 = .finished (env.fc 0).ret ∧
    (MessageLoop env false g fuel w).2.invokeCount = 1 ∧
    (MessageLoop env false g fuel w).2.events.filter isRecvE = [] ∧
    (MessageLoop env false g fuel w).2.script = w.script ∧
    ((MessageLoop env false g fuel w).2.events.filterMap sentOf).map
        Message.type_ = [MType.BeforeCall, MType.AfterCall] := by
  obtain ⟨n, rfl⟩ : ∃ n, fuel = n + 1 + 1 := ⟨fuel - 2, by omega⟩
  rcases hfc : (env.fc 0).time with _ | tv <;>
    simp [MessageLoop, loopSteps, Send, systemTime, ReceiveMsg, hinv, hev,
      hfc, isRecvE, sentOf, List.filter_append, List.filterMap_append]

/-- C5 witness: the no-response loop at the sample environment returns the
single invocation's pointer. -/
theorem noresponse_loop_witness :
    (MessageLoop envA false (.glCall 9) 2 w0).1 = .finished (envA.fc 0).ret :=
  (noresponse_loop envA (.glCall 9) w0 2 (by decide) rfl rfl).1

/-- C1: against a peer whose replies are CONTINUE then SKIP, `MessageLoop`
with `expect_response = true` executes the intercepted call exactly once
and returns the result pointer that this single invocation produced. -/
theorem continue_skip_one_invoke (env : LoopEnv) (g : MFunction)
    (c s : Message) (w : World) (fuel : Nat) (hc : c.function = .CONTINUE)
    (hs : s.function = .SKIP) (hscript : w.script = [c, s])
    (hinv : w.invokeCount = 0) (hev : w.events = []) (hf : 2 ≤ fuel) :
    (MessageLoop env true g fuel w).1 = .finished (env.fc 0).ret ∧
    (MessageLoop env true g fuel w).2.invokeCount = 1 ∧
    (MessageLoop env true g fuel w).2.events.filter isInvokedE =
      [Event.invoked 0] := by
  obtain ⟨n, rfl⟩ : ∃ n, fuel = n + 1 + 1 := ⟨fuel - 2, by omega⟩
  rcases hfc : (env.fc 0).time with _ | tv <;>
    simp [MessageLoop, loopSteps, Send, systemTime, ReceiveMsg, hscript,
      hinv, hev, hc, hs, hfc, isInvokedE, List.filter_append]

/-- C1 witness: the CONTINUE-then-SKIP run at the sample environment. -/
theorem continue_skip_one_invoke_witness :
    (MessageLoop envA true (.glCall 9) 2 wC1).1 = .finished (envA.fc 0).ret :=
  (continue_skip_one_invoke envA (.glCall 9) cCONT sSKIP wC1 2 rfl rfl rfl
    rfl rfl (by decide)).1

/-- C7: a directive whose function tag is outside {CONTINUE, SKIP, SETPROP}
is an unrecoverable protocol violation: the loop releases both sockets
(`StopDebugServer`) and terminates (`.died`), without invoking the call,
without sending anything beyond the BeforeCall frame, and without iterating
further.  (The `ASSERT` macro is modelled from the spec, section 7: fatal
with the same teardown path as `Die`; header.h is not among the sources.) -/
theorem bad_directive_fatal (env : LoopEnv) (g : MFunction) (bad : Message)
    (rest : List Message) (w : World) (fuel : Nat)
    (h1 : bad.function ≠ .CONTINUE) (h2 : bad.function ≠ .SKIP)
    (h3 : bad.function ≠ .SETPROP) (hscript : w.script = bad :: rest)
    (hinv : w.invokeCount = 0) (hev : w.events = []) (hf : 1 ≤ fuel) :
    (MessageLoop env true g fuel w).1 = .died ∧
    (MessageLoop env true g fuel w).2.socks = StopDebugServer w.socks ∧
    (MessageLoop env true g fuel w).2.invokeCount = 0 ∧
    ((MessageLoop env true g fuel w).2.events.filterMap sentOf).map
        Message.type_ = [MType.BeforeCall] ∧
    (MessageLoop env true g fuel w).2.events.filter isInvokedE = [] := by
  obtain ⟨n, rfl⟩ : ∃ n, fuel = n + 1 := ⟨fuel - 1, by omega⟩
  cases hbf : bad.function with
  | CONTINUE => exact absurd hbf h1
  | SKIP => exact absurd hbf h2
  | SETPROP => exact absurd hbf h3
  | ACK =>
    simp [MessageLoop, loopSteps, Send, systemTime, ReceiveMsg, DieW,
      hscript, hinv, hev, hbf, sentOf, isInvokedE, List.filter_append,
      List.filterMap_append]
  | glCall m =>
    simp [MessageLoop, loopSteps, Send, systemTime, ReceiveMsg, DieW,
      hscript, hinv, hev, hbf, sentOf, isInvokedE, List.filter_append,
      List.filterMap_append]

/-- C7 witness: the fatal run at the sample environment. -/
theorem bad_directive_fatal_witness :
    (MessageLoop envA true (.glCall 9) 1 wC7).1 = .died :=
  (bad_directive_fatal envA (.glCall 9) badACK [] wC7 1 (by decide)
    (by decide) (by decide) rfl rfl rfl (by decide)).1

/-- Phase lemma: dispatching a chain of valid SETPROP directives (`cmd`
then `sps`, the peer's follow-up replies being `sps` then `d`) performs one
loop iteration per directive — clock read, property application, blocking
receive, nothing sent — and then continues with directive `d`, the
properties folded into the state and the phase events appended. -/
theorem sp_phase (env : LoopEnv) (g : MFunction) :
    ∀ (sps : List Message) (cmd d : Message) (rest : List Message)
      (w : World) (ret : Int) (fuel : Nat),
      validSP cmd → (∀ m ∈ sps, validSP m) →
      w.script = sps ++ d :: rest →
      loopSteps env true g (sps.length + 1 + fuel) ret cmd w =
        loopSteps env true g fuel ret d
          { script := rest,
            clockIdx := w.clockIdx + (sps.length + 1),
            capture := spCap (cmd :: sps) w.capture,
            timeMode := spTM (cmd :: sps) w.timeMode,
            socks := w.socks,
            invokeCount := w.invokeCount,
            events := w.events ++
              spEvents env (cmd :: sps) (sps ++ [d]) w.clockIdx
                w.timeMode } := by
  intro sps
  induction sps with
  | nil =>
    intro cmd d rest w ret fuel hc _ hscript
    obtain ⟨hcf, hcp⟩ := hc
    have harith : ([] : List Message).length + 1 + fuel = fuel + 1 := by
      simp only [List.length_nil]; omega
    rw [harith]
    rcases hcp with hp | hp <;>
      simp [loopSteps, systemTime, SetProp, ReceiveMsg, spEvents, spCap,
        spTM, hscript, hcf, hp]
  | cons m sps' ih =>
    intro cmd d rest w ret fuel hc hsp hscript
    obtain ⟨hcf, hcp⟩ := hc
    have harith : (m :: sps').length + 1 + fuel =
        (sps'.length + 1 + fuel) + 1 := by
      simp only [List.length_cons]; omega
    rw [harith]
    have hstep :
        loopSteps env true g ((sps'.length + 1 + fuel) + 1) ret cmd w =
          loopSteps env true g (sps'.length + 1 + fuel) ret m
            { script := sps' ++ d :: rest,
              clockIdx := w.clockIdx + 1,
              capture :=
                if cmd.prop = MProp.Capture then cmd.arg0 else w.capture,
              timeMode :=
                if cmd.prop = MProp.TimeMode then cmd.arg0 else w.timeMode,
              socks := w.socks,
              invokeCount := w.invokeCount,
              events := w.events ++
                [.clockRead w.timeMode (env.clockFn w.clockIdx),
                 .propSet cmd.prop cmd.arg0, .received m] } := by
      rcases hcp with hp | hp <;>
        simp [loopSteps, systemTime, SetProp, ReceiveMsg, hscript, hcf, hp]
    rw [hstep,
      ih m d rest _ ret fuel (hsp m (by simp))
        (fun x hx => hsp x (by simp [hx])) (by simp)]
    congr 1
    simp only [World.mk.injEq, List.length_cons, true_and, and_true]
    refine ⟨by omega, ?_, ?_, ?_⟩
    · simp [spCap]
    · simp [spTM]
    · simp [spEvents, List.cons_append, List.append_assoc]

/-- The property assignments recorded during a SETPROP phase are exactly
the dispatched directives' (prop, value) pairs, in order. -/
theorem spEvents_props (env : LoopEnv) :
    ∀ (cmds follow : List Message) (ci : Nat) (tm : Int),
      cmds.length = follow.length →
      (spEvents env cmds follow ci tm).filterMap propOfE =
        cmds.map (fun c => (c.prop, c.arg0)) := by
  intro cmds
  induction cmds with
  | nil =>
    intro follow ci tm h
    cases follow with
    | nil => simp [spEvents]
    | cons f fs => simp at h
  | cons c cs ih =>
    intro follow ci tm h
    cases follow with
    | nil => simp at h
    | cons f fs =>
      have h2 : cs.length = fs.length := by
        simp only [List.length_cons] at h; omega
      simp [spEvents, propOfE, ih fs (ci + 1) _ h2]

/-- The sent-between-SETPROP-and-receive scan passes over a SETPROP phase:
each assignment is immediately followed by a receive, never a send. -/
theorem spEvents_sentOK (env : LoopEnv) :
    ∀ (cmds follow : List Message) (ci : Nat) (tm : Int)
      (tail : List Event),
      cmds.length = follow.length →
      sentAfterPropOK (spEvents env cmds follow ci tm ++ tail) =
        sentAfterPropOK tail := by
  intro cmds
  induction cmds with
  | nil =>
    intro follow ci tm tail h
    cases follow with
    | nil => simp [spEvents]
    | cons f fs => simp at h
  | cons c cs ih =>
    intro follow ci tm tail h
    cases follow with
    | nil => simp at h
    | cons f fs =>
      have h2 : cs.length = fs.length := by
        simp only [List.length_cons] at h; omega
      simp [spEvents, sentAfterPropOK, isRecvE, isSentE,
        ih fs (ci + 1) _ tail h2]

/-- The invoke-scan over a SETPROP phase equals the scan of the received
directives alone: clock reads and property assignments are skipped. -/
theorem spEvents_noInv (env : LoopEnv) :
    ∀ (cmds follow : List Message) (ci : Nat) (tm : Int)
      (tail : List Event),
      cmds.length = follow.length →
      noInvokeBeforeContinue (spEvents env cmds follow ci tm ++ tail) =
        noInvokeBeforeContinue (follow.map Event.received ++ tail) := by
  intro cmds
  induction cmds with
  | nil =>
    intro follow ci tm tail h
    cases follow with
    | nil => simp [spEvents]
    | cons f fs => simp at h
  | cons c cs ih =>
    intro follow ci tm tail h
    cases follow with
    | nil => simp at h
    | cons f fs =>
      have h2 : cs.length = fs.length := by
        simp only [List.length_cons] at h; omega
      by_cases hf : f.function = MFunction.CONTINUE <;>
        simp [spEvents, noInvokeBeforeContinue, hf,
          ih fs (ci + 1) _ tail h2]

/-- Receives of non-CONTINUE directives do not stop the invoke-scan. -/
theorem noInv_recvs (l : List Message) (tail : List Event)
    (h : ∀ f ∈ l, f.function ≠ MFunction.CONTINUE) :
    noInvokeBeforeContinue (l.map Event.received ++ tail) =
      noInvokeBeforeContinue tail := by
  induction l with
  | nil => simp
  | cons f fs ih =>
    have hf : f.function ≠ MFunction.CONTINUE := h f (by simp)
    simp [noInvokeBeforeContinue, hf,
      ih (fun x hx => h x (by simp [hx]))]

/-- C4: against a peer that replies SETPROP k times (each naming the
capture flag or the clock-source selector) before finally replying CONTINUE
or SKIP, each of the k property changes is applied to the session state in
order (the recorded assignments are exactly the scripted (prop, value)
pairs in script order, and the final `capture` and `timeMode` are the folds
of the chain), no frame is sent between a SETPROP application and the
following receive, and the intercepted call is executed zero times until a
CONTINUE directive arrives — in particular zero times overall when the
final directive is SKIP, the loop then returning the null pointer. -/
theorem setprop_applies_no_invoke (env : LoopEnv) (g : MFunction)
    (sps : List Message) (d : Message) (w : World) (fuel : Nat)
    (hsp : ∀ m ∈ sps, validSP m)
    (hd : d.function = .SKIP ∨ d.function = .CONTINUE)
    (hscript : w.script = sps ++ [d]) (hinv : w.invokeCount = 0)
    (hev : w.events = []) (hf : sps.length + 3 ≤ fuel) :
    ((MessageLoop env true g fuel w).2.events.filterMap propOfE) =
      sps.map (fun m => (m.prop, m.arg0)) ∧
    (MessageLoop env true g fuel w).2.capture = spCap sps w.capture ∧
    (MessageLoop env true g fuel w).2.timeMode = spTM sps w.timeMode ∧
    sentAfterPropOK (MessageLoop env true g fuel w).2.events = true ∧
    noInvokeBeforeContinue (MessageLoop env true g fuel w).2.events = true ∧
    (d.function = .SKIP →
      (MessageLoop env true g fuel w).1 = .finished 0 ∧
      (MessageLoop env true g fuel w).2.invokeCount = 0) := by
  cases sps with
  | nil =>
    obtain ⟨n, rfl⟩ : ∃ n, fuel = n + 1 + 1 := ⟨fuel - 2, by
      simp only [List.length_nil] at hf; omega⟩
    rcases hd with hd | hd
    · simp [MessageLoop, loopSteps, Send, systemTime, ReceiveMsg, hscript,
        hinv, hev, hd, spCap, spTM, propOfE, sentAfterPropOK,
        noInvokeBeforeContinue, isRecvE, isSentE]
    · rcases hfc : (env.fc 0).time with _ | tv <;>
        simp [MessageLoop, loopSteps, Send, systemTime, ReceiveMsg, hscript,
          hinv, hev, hd, hfc, spCap, spTM, propOfE, sentAfterPropOK,
          noInvokeBeforeContinue, isRecvE, isSentE]
  | cons m sps' =>
    have hm := hsp m (by simp)
    have hsp' : ∀ x ∈ sps', validSP x := fun x hx => hsp x (by simp [hx])
    have hnc : ∀ f ∈ sps', f.function ≠ MFunction.CONTINUE := by
      intro f hfm
      have := (hsp' f hfm).1
      simp [this]
    obtain ⟨n, hn⟩ : ∃ n, fuel = sps'.length + 1 + (n + 1) := by
      refine ⟨fuel - sps'.length - 2, ?_⟩
      simp only [List.length_cons] at hf
      omega
    subst hn
    have hml :
        MessageLoop env true g (sps'.length + 1 + (n + 1)) w =
          loopSteps env true g (sps'.length + 1 + (n + 1)) 0 m
            { script := sps' ++ [d],
              clockIdx := w.clockIdx + 1 + 1,
              capture := w.capture,
              timeMode := w.timeMode,
              socks := w.socks,
              invokeCount := 0,
              events :=
                [Event.wroteHeader,
                 Event.clockRead w.timeMode (env.clockFn w.clockIdx),
                 Event.sentMsg
                   { context_id := env.tid, function := g,
                     type_ := .BeforeCall, expect_response := true },
                 Event.clockRead w.timeMode (env.clockFn (w.clockIdx + 1)),
                 Event.received m] } := by
      simp [MessageLoop, Send, systemTime, ReceiveMsg, hscript, hinv, hev]
    rw [hml, sp_phase env g sps' m d [] _ 0 (n + 1) hm hsp' (by simp)]
    obtain ⟨hmf, _⟩ := hm
    rcases hd with hd | hd
    · refine ⟨?_, ?_, ?_, ?_, ?_, ?_⟩
      · simp [loopSteps, systemTime, hd, propOfE, List.filterMap_append,
          spEvents_props]
      · simp [loopSteps, systemTime, hd]
      · simp [loopSteps, systemTime, hd]
      · simp [loopSteps, systemTime, hd, sentAfterPropOK, spEvents_sentOK,
          isRecvE, isSentE]
      · simp [loopSteps, systemTime, hd, noInvokeBeforeContinue, hmf,
          spEvents_noInv, List.map_append]
        rw [noInv_recvs sps' _ hnc]
        simp [noInvokeBeforeContinue, hd]
      · intro hskip
        constructor
        · simp [loopSteps, systemTime, hd]
        · simp [loopSteps, systemTime, hd]
    · refine ⟨?_, ?_, ?_, ?_, ?_, ?_⟩
      · rcases hfc : (env.fc 0).time with _ | tv <;>
          simp [loopSteps, systemTime, Send, ReceiveMsg, hd, hfc, propOfE,
            List.filterMap_append, spEvents_props]
      · rcases hfc : (env.fc 0).time with _ | tv <;>
          simp [loopSteps, systemTime, Send, ReceiveMsg, hd, hfc]
      · rcases hfc : (env.fc 0).time with _ | tv <;>
          simp [loopSteps, systemTime, Send, ReceiveMsg, hd, hfc]
      · rcases hfc : (env.fc 0).time with _ | tv <;>
          simp [loopSteps, systemTime, Send, ReceiveMsg, hd, hfc,
            sentAfterPropOK, spEvents_sentOK, isRecvE, isSentE]
      · rcases hfc : (env.fc 0).time with _ | tv <;>
          (simp [loopSteps, systemTime, Send, ReceiveMsg, hd, hfc,
             noInvokeBeforeContinue, hmf, spEvents_noInv, List.map_append];
           rw [noInv_recvs sps' _ hnc];
           simp [noInvokeBeforeContinue, hd])
      · intro hskip
        rw [hd] at hskip
        simp at hskip

/-- C4 witness: the SETPROP chain at the sample environment applies the
capture change and ends with zero invocations and a null result. -/
theorem setprop_applies_no_invoke_witness :
    (MessageLoop envA true (.glCall 9) 5 wC4).2.capture =
      spCap [spCapMsg, spTMMsg] wC4.capture ∧
    (MessageLoop envA true (.glCall 9) 5 wC4).1 = .finished 0 :=
  ⟨(setprop_applies_no_invoke envA (.glCall 9) [spCapMsg, spTMMsg] sSKIP wC4
      5 (by decide) (Or.inl rfl) rfl rfl rfl (by decide)).2.1,
   ((setprop_applies_no_invoke envA (.glCall 9) [spCapMsg, spTMMsg] sSKIP wC4
      5 (by decide) (Or.inl rfl) rfl rfl rfl (by decide)).2.2.2.2.2 rfl).1⟩

/-- Lookup after a positional update. -/
theorem set_lookup (l : List (List WireAct)) (i : Nat) (x : List WireAct)
    (hi : i < l.length) :
    ∀ j, (l.set i x)[j]? = if j = i then some x else l[j]? := by
  intro j
  by_cases h : j = i
  · subst h
    simp [List.getElem?_set_eq_of_lt x hi]
  · rw [List.getElem?_set_ne (fun hc => h hc.symm)]
    simp [h]

/-- Collapsing consecutive runs preserves the element set. -/
theorem mem_runsOf (l : List Nat) : ∀ a, a ∈ runsOf l ↔ a ∈ l := by
  induction l with
  | nil => intro a; simp [runsOf]
  | cons x l ih =>
    intro a
    cases l with
    | nil => simp [runsOf]
    | cons y l2 =>
      by_cases hxy : x = y
      · subst hxy
        rw [show runsOf (x :: x :: l2) = runsOf (x :: l2) from by
          simp [runsOf]]
        rw [ih a]
        simp only [List.mem_cons]
        tauto
      · simp only [runsOf, if_neg hxy, List.mem_cons]
        rw [ih a]
        simp only [List.mem_cons]

/-- Appending a copy of the current last element leaves runs unchanged. -/
theorem runsOf_concat_last (l : List Nat) (t : Nat) :
    l.getLast? = some t → runsOf (l ++ [t]) = runsOf l := by
  induction l with
  | nil => intro h; simp at h
  | cons x l ih =>
    intro h
    cases l with
    | nil =>
      simp only [List.getLast?_singleton, Option.some.injEq] at h
      subst h
      simp [runsOf]
    | cons y l2 =>
      have h2 : (y :: l2).getLast? = some t := by
        rw [List.getLast?_cons_cons] at h
        exact h
      have ih2 := ih h2
      simp only [List.cons_append] at ih2
      by_cases hxy : x = y <;>
        simp [runsOf, hxy, List.cons_append, ih2]

/-- Appending an element different from the current last adds one run. -/
theorem runsOf_concat_new (l : List Nat) (t : Nat) :
    l.getLast? ≠ some t → runsOf (l ++ [t]) = runsOf l ++ [t] := by
  induction l with
  | nil => intro h; simp [runsOf]
  | cons x l ih =>
    intro h
    cases l with
    | nil =>
      have hxt : x ≠ t := by
        intro hc; subst hc; simp at h
      simp [runsOf, hxt]
    | cons y l2 =>
      have h2 : (y :: l2).getLast? ≠ some t := by
        rw [List.getLast?_cons_cons] at h
        exact h
      have ih2 := ih h2
      simp only [List.cons_append] at ih2
      by_cases hxy : x = y <;>
        simp [runsOf, hxy, List.cons_append, ih2]

/-- The last element of a list is a member. -/
theorem mem_of_getLast?_eq (l : List Nat) (t : Nat)
    (h : l.getLast? = some t) : t ∈ l := by
  have h2 : t ∈ l.getLast? := by simp [h, Option.mem_def]
  rcases List.mem_getLast?_eq_getLast h2 with ⟨hne, rfl⟩
  exact List.getLast_mem hne

/-- Extending the trace by the thread already at its tail keeps it grouped. -/
theorem grouped_concat_last (l : List Nat) (t : Nat) (hg : grouped l)
    (h : l.getLast? = some t) : grouped (l ++ [t]) := by
  unfold grouped at hg ⊢
  rw [runsOf_concat_last l t h]
  exact hg

/-- Extending the trace by a thread that never appeared keeps it grouped. -/
theorem grouped_concat_new (l : List Nat) (t : Nat) (hg : grouped l)
    (h : t ∉ l) : grouped (l ++ [t]) := by
  unfold grouped at hg ⊢
  have hne : l.getLast? ≠ some t := fun hc => h (mem_of_getLast?_eq l t hc)
  rw [runsOf_concat_new l t hne]
  have hnr : t ∉ runsOf l := fun hx => h ((mem_runsOf l t).mp hx)
  simp [List.nodup_append, hg, hnr]

/-- Appending one action extends the wire projection by at most one id. -/
theorem wireTids_append (tr : List (Nat × WireAct)) (p : Nat × WireAct) :
    wireTids (tr ++ [p]) =
      wireTids tr ++ (if wireAct p.2 then [p.1] else []) := by
  simp only [wireTids, List.filter_append]
  split <;> simp_all

/-- The only sender control point about to lock is the full program. -/
theorem senderPt_lock (rest : List WireAct)
    (h : senderPt (.lockA :: rest)) :
    rest = [.writeHeaderA, .writePayloadA, .recvA, .unlockA] := by
  rcases h with h|h|h|h|h|h <;> simp_all [sendProg]

/-- The control point about to write the header. -/
theorem senderPt_wh (rest : List WireAct)
    (h : senderPt (.writeHeaderA :: rest)) :
    rest = [.writePayloadA, .recvA, .unlockA] := by
  rcases h with h|h|h|h|h|h <;> simp_all [sendProg]

/-- The control point about to write the payload. -/
theorem senderPt_wp (rest : List WireAct)
    (h : senderPt (.writePayloadA :: rest)) :
    rest = [.recvA, .unlockA] := by
  rcases h with h|h|h|h|h|h <;> simp_all [sendProg]

/-- The control point about to receive the reply. -/
theorem senderPt_rcv (rest : List WireAct)
    (h : senderPt (.recvA :: rest)) : rest = [.unlockA] := by
  rcases h with h|h|h|h|h|h <;> simp_all [sendProg]

/-- The control point about to unlock. -/
theorem senderPt_ul (rest : List WireAct)
    (h : senderPt (.unlockA :: rest)) : rest = [] := by
  rcases h with h|h|h|h|h|h <;> simp_all [sendProg]

/-- Mid-emission control points are inside the critical section. -/
theorem midCS_inCS (t : List WireAct) (h : midCS t) : inCS t := by
  rcases h with h | h <;> simp [inCS, h]

/-- The invariant is preserved by every enabled scheduler step. -/
theorem sendInv_step (s : Conc) (i : Nat) (s2 : Conc) (hInv : SendInv s)
    (hstep : stepC s i = some s2) : SendInv s2 := by
  rcases hget : s.threads[i]? with _ | t
  · simp [stepC, hget] at hstep
  · cases t with
    | nil => simp [stepC, hget] at hstep
    | cons a rest =>
      have hpt := hInv.pts i (a :: rest) hget
      have hilen : i < s.threads.length := (List.getElem?_eq_some.mp hget).1
      have hlook : ∀ j, (s.threads.set i rest)[j]? =
          if j = i then some rest else s.threads[j]? :=
        set_lookup s.threads i rest hilen
      cases a with
      | lockA =>
        obtain rfl := senderPt_lock rest hpt
        rcases hhold : s.holder with _ | j
        · simp only [stepC, hget, hhold] at hstep
          cases hstep
          have hwt : wireTids (s.trace ++ [(i, WireAct.lockA)]) =
              wireTids s.trace := by
            rw [wireTids_append]
            simp [wireAct]
          refine ⟨?_, ?_, ?_, ?_, ?_, ?_⟩
          · intro j t' hj
            rw [hlook j] at hj
            by_cases hji : j = i
            · rw [if_pos hji] at hj
              cases hj
              right; left; rfl
            · rw [if_neg hji] at hj
              exact hInv.pts j t' hj
          · intro j t' hj hcs
            rw [hlook j] at hj
            by_cases hji : j = i
            · simp [hji]
            · rw [if_neg hji] at hj
              have := hInv.cs_holder j t' hj hcs
              rw [hhold] at this
              cases this
          · intro j hj
            simp only [Option.some.injEq] at hj
            rw [← hj]
            refine ⟨[WireAct.writeHeaderA, WireAct.writePayloadA,
              WireAct.recvA, WireAct.unlockA], ?_, Or.inl rfl⟩
            rw [hlook i, if_pos rfl]
          · simpa [hwt] using hInv.grp
          · intro j t' hj hmid
            rw [hlook j] at hj
            by_cases hji : j = i
            · rw [if_pos hji] at hj
              cases hj
              rcases hmid with h | h <;> simp at h
            · rw [if_neg hji] at hj
              have := hInv.cs_holder j t' hj (midCS_inCS t' hmid)
              rw [hhold] at this
              cases this
          · intro j t' hj
            rw [hlook j] at hj
            rw [hwt]
            by_cases hji : j = i
            · rw [if_pos hji] at hj
              cases hj
              rw [hji]
              have := hInv.emitted i _ hget
              simp at this
              simp [this]
            · rw [if_neg hji] at hj
              exact hInv.emitted j t' hj
        · simp [stepC, hget, hhold] at hstep
      | unlockA =>
        obtain rfl := senderPt_ul rest hpt
        by_cases hh : s.holder = some i
        · simp only [stepC, hget] at hstep
          rw [if_pos hh] at hstep
          cases hstep
          have hwt : wireTids (s.trace ++ [(i, WireAct.unlockA)]) =
              wireTids s.trace := by
            rw [wireTids_append]; simp [wireAct]
          refine ⟨?_, ?_, ?_, ?_, ?_, ?_⟩
          · intro j t' hj
            rw [hlook j] at hj
            by_cases hji : j = i
            · rw [if_pos hji] at hj; cases hj
              right; right; right; right; right; rfl
            · rw [if_neg hji] at hj
              exact hInv.pts j t' hj
          · intro j t' hj hcs
            rw [hlook j] at hj
            by_cases hji : j = i
            · rw [if_pos hji] at hj; cases hj
              rcases hcs with h|h|h|h <;> simp at h
            · rw [if_neg hji] at hj
              have := hInv.cs_holder j t' hj hcs
              rw [hh] at this
              simp only [Option.some.injEq] at this
              exact absurd this.symm hji
          · intro j hj
            have hj2 : (none : Option Nat) = some j := hj
            cases hj2
          · simpa [hwt] using hInv.grp
          · intro j t' hj hmid
            rw [hlook j] at hj
            by_cases hji : j = i
            · rw [if_pos hji] at hj; cases hj
              rcases hmid with h | h <;> simp at h
            · rw [if_neg hji] at hj
              have := hInv.cs_holder j t' hj (midCS_inCS t' hmid)
              rw [hh] at this
              simp only [Option.some.injEq] at this
              exact absurd this.symm hji
          · intro j t' hj
            rw [hlook j] at hj
            by_cases hji : j = i
            · rw [if_pos hji] at hj; cases hj
              rw [hji]
              have := hInv.emitted i _ hget
              simp at this
              simp [hwt, this]
            · rw [if_neg hji] at hj
              have := hInv.emitted j t' hj
              simp [hwt, this]
        · simp [stepC, hget, hh] at hstep
      | writeHeaderA =>
        obtain rfl := senderPt_wh rest hpt
        have hhold : s.holder = some i :=
          hInv.cs_holder i _ hget (Or.inl rfl)
        have hni : i ∉ wireTids s.trace := by
          have := hInv.emitted i _ hget
          simp at this
          exact this
        simp only [stepC, hget] at hstep
        cases hstep
        have hwt : wireTids (s.trace ++ [(i, WireAct.writeHeaderA)]) =
            wireTids s.trace ++ [i] := by
          rw [wireTids_append]; simp [wireAct]
        refine ⟨?_, ?_, ?_, ?_, ?_, ?_⟩
        · intro j t' hj
          rw [hlook j] at hj
          by_cases hji : j = i
          · rw [if_pos hji] at hj; cases hj
            right; right; left; rfl
          · rw [if_neg hji] at hj
            exact hInv.pts j t' hj
        · intro j t' hj hcs
          rw [hlook j] at hj
          by_cases hji : j = i
          · simp [hji, hhold]
          · rw [if_neg hji] at hj
            exact hInv.cs_holder j t' hj hcs
        · intro j hj
          have hj2 : s.holder = some j := hj
          rw [hhold] at hj2
          simp only [Option.some.injEq] at hj2
          rw [← hj2]
          refine ⟨[WireAct.writePayloadA, WireAct.recvA, WireAct.unlockA],
            ?_, Or.inr (Or.inl rfl)⟩
          rw [hlook i, if_pos rfl]
        · simpa [hwt] using grouped_concat_new _ i hInv.grp hni
        · intro j t' hj hmid
          rw [hlook j] at hj
          by_cases hji : j = i
          · simp [hji, hwt, List.getLast?_concat]
          · rw [if_neg hji] at hj
            have := hInv.cs_holder j t' hj (midCS_inCS t' hmid)
            rw [hhold] at this
            simp only [Option.some.injEq] at this
            exact absurd this.symm hji
        · intro j t' hj
          rw [hlook j] at hj
          by_cases hji : j = i
          · rw [if_pos hji] at hj; cases hj
            simp [hji, hwt]
          · rw [if_neg hji] at hj
            have := hInv.emitted j t' hj
            simp [hwt, List.mem_append, hji, this]
      | writePayloadA =>
        obtain rfl := senderPt_wp rest hpt
        have hhold : s.holder = some i :=
          hInv.cs_holder i _ hget (Or.inr (Or.inl rfl))
        have htl : (wireTids s.trace).getLast? = some i :=
          hInv.tail_mid i _ hget (Or.inl rfl)
        simp only [stepC, hget] at hstep
        cases hstep
        have hwt : wireTids (s.trace ++ [(i, WireAct.writePayloadA)]) =
            wireTids s.trace ++ [i] := by
          rw [wireTids_append]; simp [wireAct]
        refine ⟨?_, ?_, ?_, ?_, ?_, ?_⟩
        · intro j t' hj
          rw [hlook j] at hj
          by_cases hji : j = i
          · rw [if_pos hji] at hj; cases hj
            right; right; right; left; rfl
          · rw [if_neg hji] at hj
            exact hInv.pts j t' hj
        · intro j t' hj hcs
          rw [hlook j] at hj
          by_cases hji : j = i
          · simp [hji, hhold]
          · rw [if_neg hji] at hj
            exact hInv.cs_holder j t' hj hcs
        · intro j hj
          have hj2 : s.holder = some j := hj
          rw [hhold] at hj2
          simp only [Option.some.injEq] at hj2
          rw [← hj2]
          refine ⟨[WireAct.recvA, WireAct.unlockA], ?_,
            Or.inr (Or.inr (Or.inl rfl))⟩
          rw [hlook i, if_pos rfl]
        · simpa [hwt] using grouped_concat_last _ i hInv.grp htl
        · intro j t' hj hmid
          rw [hlook j] at hj
          by_cases hji : j = i
          · simp [hji, hwt, List.getLast?_concat]
          · rw [if_neg hji] at hj
            have := hInv.cs_holder j t' hj (midCS_inCS t' hmid)
            rw [hhold] at this
            simp only [Option.some.injEq] at this
            exact absurd this.symm hji
        · intro j t' hj
          rw [hlook j] at hj
          by_cases hji : j = i
          · rw [if_pos hji] at hj; cases hj
            simp [hji, hwt]
          · rw [if_neg hji] at hj
            have := hInv.emitted j t' hj
            simp [hwt, List.mem_append, hji, this]
      | recvA =>
        obtain rfl := senderPt_rcv rest hpt
        have hhold : s.holder = some i :=
          hInv.cs_holder i _ hget (Or.inr (Or.inr (Or.inl rfl)))
        have htl : (wireTids s.trace).getLast? = some i :=
          hInv.tail_mid i _ hget (Or.inr rfl)
        simp only [stepC, hget] at hstep
        cases hstep
        have hwt : wireTids (s.trace ++ [(i, WireAct.recvA)]) =
            wireTids s.trace ++ [i] := by
          rw [wireTids_append]; simp [wireAct]
        refine ⟨?_, ?_, ?_, ?_, ?_, ?_⟩
        · intro j t' hj
          rw [hlook j] at hj
          by_cases hji : j = i
          · rw [if_pos hji] at hj; cases hj
            right; right; right; right; left; rfl
          · rw [if_neg hji] at hj
            exact hInv.pts j t' hj
        · intro j t' hj hcs
          rw [hlook j] at hj
          by_cases hji : j = i
          · simp [hji, hhold]
          · rw [if_neg hji] at hj
            exact hInv.cs_holder j t' hj hcs
        · intro j hj
          have hj2 : s.holder = some j := hj
          rw [hhold] at hj2
          simp only [Option.some.injEq] at hj2
          rw [← hj2]
          refine ⟨[WireAct.unlockA], ?_, Or.inr (Or.inr (Or.inr rfl))⟩
          rw [hlook i, if_pos rfl]
        · simpa [hwt] using grouped_concat_last _ i hInv.grp htl
        · intro j t' hj hmid
          rw [hlook j] at hj
          by_cases hji : j = i
          · rw [if_pos hji] at hj; cases hj
            rcases hmid with h | h <;> simp at h
          · rw [if_neg hji] at hj
            have := hInv.cs_holder j t' hj (midCS_inCS t' hmid)
            rw [hhold] at this
            simp only [Option.some.injEq] at this
            exact absurd this.symm hji
        · intro j t' hj
          rw [hlook j] at hj
          by_cases hji : j = i
          · rw [if_pos hji] at hj; cases hj
            simp [hji, hwt]
          · rw [if_neg hji] at hj
            have := hInv.emitted j t' hj
            simp [hwt, List.mem_append, hji, this]

/-- Every thread of an all-senders system starts at the full program. -/
theorem replicate_lookup (n i : Nat) (t : List WireAct)
    (h : (List.replicate n sendProg)[i]? = some t) : t = sendProg := by
  rcases List.getElem?_eq_some.mp h with ⟨hlt, hv⟩
  simp only [List.getElem_replicate] at hv
  exact hv.symm

/-- The invariant holds of the initial all-senders system. -/
theorem sendInv_init (n : Nat) : SendInv (sendersInit n) := by
  refine ⟨?_, ?_, ?_, ?_, ?_, ?_⟩
  · intro i t h
    rw [replicate_lookup n i t h]
    left; rfl
  · intro i t h hcs
    rw [replicate_lookup n i t h] at hcs
    rcases hcs with h2|h2|h2|h2 <;> simp [sendProg] at h2
  · intro i h
    have h2 : (none : Option Nat) = some i := h
    cases h2
  · simp [sendersInit, wireTids, grouped, runsOf]
  · intro i t h hmid
    rw [replicate_lookup n i t h] at hmid
    rcases hmid with h2 | h2 <;> simp [sendProg] at h2
  · intro i t h
    rw [replicate_lookup n i t h]
    simp [sendersInit, wireTids, sendProg]

/-- The invariant is preserved along any schedule. -/
theorem runC_inv (sched : List Nat) :
    ∀ (s : Conc), SendInv s → ∀ s2, runC s sched = some s2 → SendInv s2 := by
  induction sched with
  | nil =>
    intro s hs s2 h
    simp only [runC] at h
    cases h
    exact hs
  | cons i sch ih =>
    intro s hs s2 h
    simp only [runC] at h
    rcases hst : stepC s i with _ | s3
    · rw [hst] at h; cases h
    · rw [hst] at h
      exact ih s3 (sendInv_step s i s3 hs hst) s2 h

/-- C2 (amended): sends with `expect_response = true` are serialized by the
single exclusive mutex held across the header write, payload write and
receive — in every schedulable execution of any number of threads each
performing one `Send` cycle, the wire operations of distinct threads never
interleave (the trace of wire actions is grouped by thread).  The original
claim's further conjunct — that the receive performed from `MessageLoop`'s
SETPROP branch is likewise exclusive with respect to senders — is false:
that receive takes no lock (see the counterexample). -/
theorem send_cycles_serialized (n : Nat) (sched : List Nat) (s2 : Conc)
    (h : runC (sendersInit n) sched = some s2) :
    grouped (wireTids s2.trace) :=
  (runC_inv sched (sendersInit n) (sendInv_init n) s2 h).grp

/-- C2 witness: a two-sender schedule runs to completion and its wire trace
is grouped. -/
theorem send_cycles_serialized_witness :
    grouped (wireTids ((⟨[[], []], none,
      [(0, .lockA), (0, .writeHeaderA), (0, .writePayloadA), (0, .recvA),
       (0, .unlockA), (1, .lockA), (1, .writeHeaderA), (1, .writePayloadA),
       (1, .recvA), (1, .unlockA)]⟩ : Conc)).trace) :=
  send_cycles_serialized 2 [0, 0, 0, 0, 0, 1, 1, 1, 1, 1] _ (by decide)

/-- C2 counterexample: one sender plus one thread performing the SETPROP
branch receive of `MessageLoop` (which acquires no lock, server.cpp line
220).  The scheduler can run the bare receive between the sender's header
write and payload write: the wire trace groups as [0, 1, 0, 0], which is
not grouped — the claimed exclusivity of the SETPROP-branch receive with
respect to senders fails. -/
theorem setprop_recv_interleaves :
    (runC ⟨[sendProg, setpropRecvProg], none, []⟩
        [0, 0, 1, 0, 0, 0]).map (fun s => wireTids s.trace) =
      some [0, 1, 0, 0] ∧ ¬ grouped [0, 1, 0, 0] :=
  ⟨by decide, by decide⟩
